import Mathlib

/-!
Shallow embedding of `easylog.go` (package `easylog`): an asynchronous
log sink.  Producers call `Write`, a single pump goroutine (`_serveLog`)
drains the ingress channel into an accumulation buffer and flushes it to
the active file (`_writeFile` / `_tryWrite` / `_mustWrite` / `_rename`),
and a retention sweeper (`_initFileRemove`) deletes old rotated files.

File contents are byte lists (`List Nat`).  I/O failure modes that the
claims talk about (open failure, rename failure) are explicit boolean
fields of the file-system state; a write that the OS accepts is modelled
as appending the bytes.
-/

namespace EasyLog

/-- Bytes of a payload or of a file, each byte a natural number. -/
abbrev Bytes := List Nat

/-- The configuration fields of the Go `EasyLog` struct that the
write/rotate/retention pipeline reads: `MaxFileSize` and `MaxFileCount`.
(`MaxFileSize` defaults to 4 MiB and the setter clamps it to ≥ 1 MiB;
`MaxFileCount` is an `int64`, clamped to ≥ 0 by its setter.) -/
structure Config where
  maxFileSize : Nat
  maxFileCount : Int
deriving Repr, DecidableEq

/-- State of the on-disk log files plus the retention-trigger channel.
`active` is the content of `<SaveDir>/<FileName>`; `rotated` the contents
of the rotated (renamed) files, oldest first; `pending` the number of
signals queued in the capacity-1 delete-notification channel; `openFails`
models `os.OpenFile` returning an error for the active path; `renameFails`
models both `os.Rename` attempts in `_rename` failing. -/
structure FsState where
  active : Bytes
  rotated : List Bytes
  pending : Nat
  openFails : Bool
  renameFails : Bool
deriving Repr, DecidableEq

/-- `_tryWrite`: open the active file (append/create); on open error return
`true` without writing; otherwise stat the size and refuse (`false`, no
write) if `size + len(data) > MaxFileSize`; otherwise append and return
`true`. -/
def tryWrite (cfg : Config) (data : Bytes) (fs : FsState) : Bool × FsState :=
  if fs.openFails then
    (true, fs)
  else if fs.active.length + data.length > cfg.maxFileSize then
    (false, fs)
  else
    (true, { fs with active := fs.active ++ data })

/-- `_mustWrite`: open the active file (append/create); on open error do
nothing; otherwise append `data` unconditionally, with no size check. -/
def mustWrite (data : Bytes) (fs : FsState) : FsState :=
  if fs.openFails then
    fs
  else
    { fs with active := fs.active ++ data }

/-- `_rename`: rename the active file to `<FileName>.<14-digit timestamp>`
(two attempts; if both fail, give up silently leaving the file in place).
On success the active file's bytes become the newest rotated file and the
active path is fresh. -/
def renameActive (fs : FsState) : FsState :=
  if fs.renameFails then
    fs
  else
    { fs with rotated := fs.rotated ++ [fs.active], active := [] }

/-- The body of `nofityDelFile` acting on the occupancy of the capacity-1
signal channel `ch`: `if len(ch) == 0 { ch <- 1 }`. -/
def notifyCh (ch : Nat) : Nat :=
  if ch = 0 then ch + 1 else ch

/-- `nofityDelFile` on the file-system state: enqueue a wake signal for
the retention sweeper unless one is already pending. -/
def notifyDelFile (fs : FsState) : FsState :=
  { fs with pending := notifyCh fs.pending }

/-- `_writeFile`: try the size-checked append; if it refuses, rotate
(`_rename`), write unconditionally (`_mustWrite`) and signal the
retention sweeper (`nofityDelFile`). -/
def writeFile (cfg : Config) (data : Bytes) (fs : FsState) : FsState :=
  if (tryWrite cfg data fs).1 then
    (tryWrite cfg data fs).2
  else
    notifyDelFile (mustWrite data (renameActive fs))

/-- A concrete payload of `n` zero bytes, used to instantiate theorems at
realistic (MiB-scale) sizes without evaluating a million-element list. -/
def payloadOfSize (n : Nat) : Bytes := List.replicate n 0

theorem payloadOfSize_length (n : Nat) : (payloadOfSize n).length = n :=
  List.length_replicate n 0

theorem fs_empty_payload_le (n : Nat) :
    (FsState.mk [] [] 0 false false).active.length + (payloadOfSize n).length ≤ n := by
  simp [payloadOfSize_length]

theorem fs_payload_single_gt (n a : Nat) :
    (FsState.mk (payloadOfSize n) [] 0 false false).active.length + [a].length > n := by
  simp [payloadOfSize_length]

/-- Claim C3: with the active file openable, `_tryWrite` refuses (returns
`false`, writes nothing) exactly when `size + len(data) > MaxFileSize`,
and otherwise appends `data` and returns `true`; in particular an empty
active file accepts a payload of exactly `MaxFileSize` bytes (instantiated
by the witness). -/
theorem tryWrite_size_check (cfg : Config) (data : Bytes) (fs : FsState)
    (h : fs.openFails = false) :
    (fs.active.length + data.length > cfg.maxFileSize →
      tryWrite cfg data fs = (false, fs)) ∧
    (fs.active.length + data.length ≤ cfg.maxFileSize →
      tryWrite cfg data fs = (true, { fs with active := fs.active ++ data })) := by
  constructor
  · intro hgt
    simp [tryWrite, h, hgt]
  · intro hle
    simp [tryWrite, h, Nat.not_lt.mpr hle]

/-- Witness for C3 at the boundary from the spec: an empty active file and
a payload of exactly `MaxFileSize` (= 1 MiB) bytes is appended and
`_tryWrite` returns `true`. -/
theorem tryWrite_size_check_witness :
    (⟨[], [], 0, false, false⟩ : FsState).openFails = false ∧
    tryWrite ⟨1048576, 0⟩ (payloadOfSize 1048576) ⟨[], [], 0, false, false⟩ =
      (true, ⟨payloadOfSize 1048576, [], 0, false, false⟩) := by
  refine ⟨rfl, ?_⟩
  have h := (tryWrite_size_check ⟨1048576, 0⟩ (payloadOfSize 1048576)
    ⟨[], [], 0, false, false⟩ rfl).2 (fs_empty_payload_le 1048576)
  exact h

/-- Claim C10: if opening the active file fails, `_tryWrite` reports
success (`true`) while writing nothing, so `_writeFile` performs no
rotation, no retry and no sweeper signal: the payload is silently dropped
and the whole state is unchanged. -/
theorem tryWrite_open_failure_drops (cfg : Config) (data : Bytes) (fs : FsState)
    (h : fs.openFails = true) :
    tryWrite cfg data fs = (true, fs) ∧ writeFile cfg data fs = fs := by
  have ht : tryWrite cfg data fs = (true, fs) := by simp [tryWrite, h]
  exact ⟨ht, by simp [writeFile, ht]⟩

/-- Witness for C10: with open failing, a concrete payload is dropped and
the state (including the rotated list and the pending signal count) is
untouched. -/
theorem tryWrite_open_failure_drops_witness :
    (⟨[1, 2], [[9]], 0, true, false⟩ : FsState).openFails = true ∧
    writeFile ⟨1048576, 0⟩ [3, 4, 5] ⟨[1, 2], [[9]], 0, true, false⟩ =
      ⟨[1, 2], [[9]], 0, true, false⟩ := by
  exact ⟨rfl,
    (tryWrite_open_failure_drops ⟨1048576, 0⟩ [3, 4, 5]
      ⟨[1, 2], [[9]], 0, true, false⟩ rfl).2⟩

/-- Shape of `_writeFile` on the refusal path: `_tryWrite` refuses, the
active file is renamed into the rotated list, `_mustWrite` writes the full
payload to the fresh active file, and the sweeper channel is signalled. -/
theorem writeFile_refused (cfg : Config) (data : Bytes) (fs : FsState)
    (ho : fs.openFails = false) (hr : fs.renameFails = false)
    (hbig : fs.active.length + data.length > cfg.maxFileSize) :
    writeFile cfg data fs =
      { active := data, rotated := fs.rotated ++ [fs.active],
        pending := notifyCh fs.pending, openFails := false, renameFails := false } := by
  have ht : tryWrite cfg data fs = (false, fs) := by simp [tryWrite, ho, hbig]
  simp [writeFile, ht, renameActive, hr, mustWrite, ho, notifyDelFile]

/-- Claim C4: when `_tryWrite` refuses a payload (it would overflow) and
open/rename succeed, `_writeFile` rotates the active file, `_mustWrite`
unconditionally appends the full payload to the fresh active file, and the
retention sweeper is signalled; hence a single payload larger than
`MaxFileSize` produces an active file exceeding the configured cap. -/
theorem writeFile_rotation_overflow (cfg : Config) (data : Bytes) (fs : FsState)
    (ho : fs.openFails = false) (hr : fs.renameFails = false)
    (hbig : fs.active.length + data.length > cfg.maxFileSize) :
    writeFile cfg data fs =
      { active := data, rotated := fs.rotated ++ [fs.active],
        pending := notifyCh fs.pending, openFails := false, renameFails := false } ∧
    (data.length > cfg.maxFileSize →
      (writeFile cfg data fs).active.length > cfg.maxFileSize) := by
  have hw := writeFile_refused cfg data fs ho hr hbig
  exact ⟨hw, fun hd => by rw [hw]; exact hd⟩

/-- Witness for C4: a full 1 MiB active file refuses a 1-byte append, is
rotated, and the fresh active file receives exactly the payload while the
sweeper signal becomes pending. -/
theorem writeFile_rotation_overflow_witness :
    (⟨payloadOfSize 1048576, [], 0, false, false⟩ : FsState).openFails = false ∧
    (⟨payloadOfSize 1048576, [], 0, false, false⟩ : FsState).renameFails = false ∧
    (⟨payloadOfSize 1048576, [], 0, false, false⟩ : FsState).active.length + [7].length
      > 1048576 ∧
    writeFile ⟨1048576, 0⟩ [7] ⟨payloadOfSize 1048576, [], 0, false, false⟩ =
      ⟨[7], [payloadOfSize 1048576], 1, false, false⟩ := by
  have hbig := fs_payload_single_gt 1048576 7
  refine ⟨rfl, rfl, hbig, ?_⟩
  have h := (writeFile_rotation_overflow ⟨1048576, 0⟩ [7]
    ⟨payloadOfSize 1048576, [], 0, false, false⟩ rfl rfl hbig).1
  exact h

/-- A run of flushes: `_writeFile` applied in sequence to the payloads the
pump hands over, oldest first. -/
def runWrites (cfg : Config) : List Bytes → FsState → FsState
  | [], fs => fs
  | p :: ps, fs => runWrites cfg ps (writeFile cfg p fs)

theorem fs_empty_payload_gt (n m : Nat) (h : m < n) :
    (FsState.mk [] [] 0 false false).active.length + (payloadOfSize n).length > m := by
  simp [payloadOfSize_length]
  omega

theorem mk_payload_active_gt (n m : Nat) (r : List Bytes) (p : Nat) (o rn : Bool)
    (h : m < n) : m < (FsState.mk (payloadOfSize n) r p o rn).active.length := by
  simp [payloadOfSize_length]
  omega

/-- One flush keeps the active file within the cap, provided the flushed
payload itself is within the cap and renames succeed; it also preserves
`renameFails = false`. -/
theorem writeFile_active_le (cfg : Config) (data : Bytes) (fs : FsState)
    (hr : fs.renameFails = false) (hfs : fs.active.length ≤ cfg.maxFileSize)
    (hd : data.length ≤ cfg.maxFileSize) :
    (writeFile cfg data fs).active.length ≤ cfg.maxFileSize ∧
    (writeFile cfg data fs).renameFails = false := by
  cases hof : fs.openFails with
  | true => simp [writeFile, tryWrite, hof, hfs, hr]
  | false =>
    by_cases hgt : fs.active.length + data.length > cfg.maxFileSize
    · have hw := writeFile_refused cfg data fs hof hr hgt
      rw [hw]
      exact ⟨hd, rfl⟩
    · simp [writeFile, tryWrite, hof, hgt, hr]
      omega

/-- Claim C6 is false on the code: starting from an empty active file with
`MaxFileSize` = 1 MiB, flushing a single payload of 1 MiB + 1 bytes drives
the active file to 1 MiB + 1 bytes (the rotation path `_mustWrite`s the
oversized payload unconditionally), so the size observed by the next
append exceeds `MaxFileSize`. -/
theorem active_size_invariant_cex :
    1048576 < (writeFile ⟨1048576, 0⟩ (payloadOfSize 1048577)
      (FsState.mk [] [] 0 false false)).active.length := by
  have h := writeFile_refused ⟨1048576, 0⟩ (payloadOfSize 1048577)
    (FsState.mk [] [] 0 false false) rfl rfl
    (fs_empty_payload_gt 1048577 1048576 (by omega))
  rw [h]
  exact mk_payload_active_gt 1048577 1048576 _ _ _ _ (by omega)

/-- Claim C6 (amended): in every state reachable by a sequence of flushes
in which every flushed payload is at most `MaxFileSize` and renames
succeed, the active file's size — as observed at the start of any append,
before the size check — never exceeds `MaxFileSize`.  (A single flushed
payload above the cap, or a failed rename followed by the forced write,
leaves the active file above the cap until the next rotation.) -/
theorem runWrites_active_bounded (cfg : Config) (ps : List Bytes) (fs : FsState)
    (hr : fs.renameFails = false) (h0 : fs.active.length ≤ cfg.maxFileSize)
    (hps : ∀ p ∈ ps, p.length ≤ cfg.maxFileSize) :
    (runWrites cfg ps fs).active.length ≤ cfg.maxFileSize := by
  induction ps generalizing fs with
  | nil => exact h0
  | cons p ps ih =>
    have hstep := writeFile_active_le cfg p fs hr h0 (hps p (by simp))
    exact ih (writeFile cfg p fs) hstep.2 hstep.1 (fun q hq => hps q (by simp [hq]))

/-- Witness for the amended C6: two small flushes on a 1 MiB cap keep the
active file within the cap. -/
theorem runWrites_active_bounded_witness :
    (FsState.mk [] [] 0 false false).renameFails = false ∧
    (FsState.mk [] [] 0 false false).active.length ≤ 1048576 ∧
    (∀ p ∈ [[1], [2, 3]], List.length p ≤ 1048576) ∧
    (runWrites ⟨1048576, 0⟩ [[1], [2, 3]]
      (FsState.mk [] [] 0 false false)).active.length ≤ 1048576 :=
  ⟨rfl, by decide, by decide,
    runWrites_active_bounded ⟨1048576, 0⟩ [[1], [2, 3]]
      (FsState.mk [] [] 0 false false) rfl (by decide) (by decide)⟩

/-- Claim C7: the rotation-cleanup trigger is coalescing and idempotent.
Starting from any legal channel occupancy (≤ 1 queued signal): a notify
keeps the occupancy ≤ 1, a second notify changes nothing, and any positive
number of notifies in a burst leaves exactly one pending signal, so the
sweeper (which runs one `cleanFile` pass per queued signal) performs
exactly one sweep pass on the next wake. -/
theorem notify_coalesces (ch k : Nat) (hch : ch ≤ 1) (hk : 1 ≤ k) :
    notifyCh ch ≤ 1 ∧
    notifyCh (notifyCh ch) = notifyCh ch ∧
    notifyCh^[k] ch = 1 := by
  have hone : ∀ m : Nat, notifyCh^[m] 1 = 1 := by
    intro m
    induction m with
    | zero => rfl
    | succ m ihm => rw [Function.iterate_succ_apply, show notifyCh 1 = 1 from rfl, ihm]
  have hstep : notifyCh ch = 1 := by
    interval_cases ch <;> rfl
  obtain ⟨j, rfl⟩ : ∃ j, k = j + 1 := ⟨k - 1, by omega⟩
  refine ⟨by rw [hstep], by rw [hstep]; rfl, ?_⟩
  rw [Function.iterate_succ_apply, hstep, hone j]

/-- Witness for C7: three rapid notifies on an initially empty trigger
channel leave exactly one pending signal. -/
theorem notify_coalesces_witness :
    (0 : Nat) ≤ 1 ∧ (1 : Nat) ≤ 3 ∧ notifyCh^[3] 0 = 1 :=
  ⟨by decide, by decide, (notify_coalesces 0 3 (by decide) (by decide)).2.2⟩

/-- `bytes.Buffer.Reset` on the pooled buffer: drop any recycled content. -/
def bufferReset (_b : Bytes) : Bytes := []

/-- `bytes.Buffer.Write(p)`: append `p`, returning `(len(p), nil)` — for a
byte-slice source the copy never fails. -/
def bufferWrite (b p : Bytes) : Bytes × Nat × Option String :=
  (b ++ p, p.length, none)

/-- `Write`: take a pooled buffer (with arbitrary recycled content), reset
it, copy `p` into it, push it onto the ingress channel, and return exactly
the copy count and copy error.  The file-system state is untouched and no
persistence failure can reach the return value. -/
def easyLogWrite (pooled p : Bytes) (pipe : List Bytes) (fs : FsState) :
    (Nat × Option String) × List Bytes × FsState :=
  let b := bufferReset pooled
  let r := bufferWrite b p
  ((r.2.1, r.2.2), pipe ++ [r.1], fs)

/-- Claim C8: for every input `p`, `Write` returns only the buffer-copy
result — count `len(p)` and error `nil` — regardless of the recycled
buffer's old content, of the queue, and of the entire file-system state
(including open/rename failure modes); the enqueued record is exactly `p`
and no downstream persistence outcome is surfaced to the caller. -/
theorem write_returns_copy_result (pooled p : Bytes) (pipe : List Bytes)
    (fs : FsState) :
    (easyLogWrite pooled p pipe fs).1 = (p.length, none) ∧
    (easyLogWrite pooled p pipe fs).2.1 = pipe ++ [p] ∧
    (easyLogWrite pooled p pipe fs).2.2 = fs := by
  refine ⟨rfl, ?_, rfl⟩
  simp [easyLogWrite, bufferReset, bufferWrite]

/-- `CalcMaxCacheSize` in `_serveLog`: `min(MaxFileSize, 1 MiB)`. -/
def maxCacheSize (cfg : Config) : Nat := min cfg.maxFileSize (1024 * 1024)

/-- One outcome of the `select` in the pump loop: either a record buffer
arrives on the ingress channel (`ok` is the channel-receive flag) or the
flush ticker fires. -/
inductive Ev where
  | recv (p : Bytes) (ok : Bool)
  | tick
deriving Repr, DecidableEq

/-- Pump-local state: the accumulation buffer `data` plus the file-system
state its flushes act on. -/
structure PumpState where
  acc : Bytes
  fs : FsState
deriving Repr, DecidableEq

/-- Flush the accumulation buffer: `_writeFile(data); data.Reset()`. -/
def flushAcc (cfg : Config) (s : PumpState) : PumpState :=
  { acc := [], fs := writeFile cfg s.acc s.fs }

/-- The `select` body of one pump iteration: on a channel receive append
the record's bytes to the accumulation buffer (and recycle the record
buffer); on a ticker fire flush the buffer if it is non-empty. -/
def handleEvent (cfg : Config) (s : PumpState) : Ev → PumpState
  | .recv p ok => if ok then { s with acc := s.acc ++ p } else s
  | .tick => if 0 < s.acc.length then flushAcc cfg s else s

/-- One full iteration of the pump loop: the `select` body, then the size
check `if data.Len() > maxCacheSize { <-tm.C; _writeFile(data);
data.Reset() }`.  The second component counts the ticker receives
(`<-tm.C`) performed after the event — how many times the iteration blocks
waiting for the timer before its size-triggered flush. -/
def iteratePump (cfg : Config) (s : PumpState) (e : Ev) : PumpState × Nat :=
  if (handleEvent cfg s e).acc.length > maxCacheSize cfg then
    (flushAcc cfg (handleEvent cfg s e), 1)
  else
    (handleEvent cfg s e, 0)

/-- Run the pump loop over a finite schedule of events. -/
def runPump (cfg : Config) (s : PumpState) : List Ev → PumpState
  | [] => s
  | e :: es => runPump cfg (iteratePump cfg s e).1 es

/-- The bytes an event contributes to the accumulation buffer. -/
def evPayload : Ev → Bytes
  | .recv p true => p
  | .recv _ false => []
  | .tick => []

/-- Payloads of the records received from the ingress channel, in FIFO
(enqueue) order. -/
def received : List Ev → List Bytes
  | [] => []
  | .recv p true :: es => p :: received es
  | .recv _ false :: es => received es
  | .tick :: es => received es

/-- A flush that fits under the cap is a plain append to the active file. -/
theorem writeFile_fits (cfg : Config) (data : Bytes) (fs : FsState)
    (ho : fs.openFails = false)
    (hle : fs.active.length + data.length ≤ cfg.maxFileSize) :
    writeFile cfg data fs = { fs with active := fs.active ++ data } := by
  simp [writeFile, tryWrite, ho, Nat.not_lt.mpr hle]

theorem flushAcc_fits (cfg : Config) (s : PumpState)
    (ho : s.fs.openFails = false)
    (hle : s.fs.active.length + s.acc.length ≤ cfg.maxFileSize) :
    flushAcc cfg s = ⟨[], { s.fs with active := s.fs.active ++ s.acc }⟩ := by
  simp [flushAcc, writeFile_fits cfg s.acc s.fs ho hle]

/-- One pump iteration preserves `active ++ acc` up to appending the bytes
the event delivered, provided everything still fits under the cap. -/
theorem iteratePump_concat (cfg : Config) (s : PumpState) (e : Ev)
    (ho : s.fs.openFails = false)
    (hsz : s.fs.active.length + s.acc.length + (evPayload e).length
      ≤ cfg.maxFileSize) :
    (iteratePump cfg s e).1.fs.active ++ (iteratePump cfg s e).1.acc
      = s.fs.active ++ s.acc ++ evPayload e ∧
    (iteratePump cfg s e).1.fs.openFails = false := by
  cases e with
  | recv p ok =>
    cases ok with
    | true =>
      simp only [evPayload] at hsz
      have hs1 : handleEvent cfg s (.recv p true) = ⟨s.acc ++ p, s.fs⟩ := by
        simp [handleEvent]
      have hle : s.fs.active.length + (s.acc ++ p).length ≤ cfg.maxFileSize := by
        rw [List.length_append]
        omega
      by_cases hc : (s.acc ++ p).length > maxCacheSize cfg
      · have hfl := flushAcc_fits cfg ⟨s.acc ++ p, s.fs⟩ ho hle
        have hres : iteratePump cfg s (.recv p true)
            = (⟨[], { s.fs with active := s.fs.active ++ (s.acc ++ p) }⟩, 1) := by
          simp only [iteratePump]
          rw [hs1]
          rw [if_pos (by simpa using hc)]
          rw [hfl]
        rw [hres]
        exact ⟨by simp [evPayload, List.append_assoc], by simp [ho]⟩
      · have hres : iteratePump cfg s (.recv p true) = (⟨s.acc ++ p, s.fs⟩, 0) := by
          simp only [iteratePump]
          rw [hs1]
          rw [if_neg (by simpa using hc)]
        rw [hres]
        exact ⟨by simp [evPayload, List.append_assoc], ho⟩
    | false =>
      simp only [evPayload, List.length_nil] at hsz
      have hs1 : handleEvent cfg s (.recv p false) = s := by simp [handleEvent]
      have hle : s.fs.active.length + s.acc.length ≤ cfg.maxFileSize := by omega
      by_cases hc : s.acc.length > maxCacheSize cfg
      · have hfl := flushAcc_fits cfg s ho hle
        have hres : iteratePump cfg s (.recv p false)
            = (⟨[], { s.fs with active := s.fs.active ++ s.acc }⟩, 1) := by
          simp only [iteratePump]
          rw [hs1]
          rw [if_pos hc]
          rw [hfl]
        rw [hres]
        exact ⟨by simp [evPayload], by simp [ho]⟩
      · have hres : iteratePump cfg s (.recv p false) = (s, 0) := by
          simp only [iteratePump]
          rw [hs1]
          rw [if_neg hc]
        rw [hres]
        exact ⟨by simp [evPayload], ho⟩
  | tick =>
    simp only [evPayload, List.length_nil] at hsz
    have hle : s.fs.active.length + s.acc.length ≤ cfg.maxFileSize := by omega
    by_cases hne : 0 < s.acc.length
    · have hfl := flushAcc_fits cfg s ho hle
      have hs1 : handleEvent cfg s .tick
          = ⟨[], { s.fs with active := s.fs.active ++ s.acc }⟩ := by
        simp only [handleEvent]
        rw [if_pos hne]
        exact hfl
      have hres : iteratePump cfg s .tick
          = (⟨[], { s.fs with active := s.fs.active ++ s.acc }⟩, 0) := by
        simp only [iteratePump]
        rw [hs1]
        rw [if_neg (by simp [maxCacheSize])]
      rw [hres]
      exact ⟨by simp [evPayload], by simp [ho]⟩
    · have hacc : s.acc = [] := by
        cases h : s.acc with
        | nil => rfl
        | cons a t => rw [h] at hne; simp at hne
      have hs1 : handleEvent cfg s .tick = s := by
        simp only [handleEvent]
        rw [if_neg hne]
      have hres : iteratePump cfg s .tick = (s, 0) := by
        simp only [iteratePump]
        rw [hs1]
        rw [if_neg (by rw [hacc]; simp)]
      rw [hres]
      exact ⟨by simp [evPayload], ho⟩

/-- After a tick iteration the accumulation buffer is always empty. -/
theorem iteratePump_tick_acc (cfg : Config) (s : PumpState) :
    ((iteratePump cfg s Ev.tick).1).acc = [] := by
  by_cases hne : 0 < s.acc.length
  · have hs1 : handleEvent cfg s .tick = flushAcc cfg s := by
      simp [handleEvent, hne]
    simp only [iteratePump, hs1]
    rw [if_neg (by simp [flushAcc, maxCacheSize])]
    simp [flushAcc]
  · have hacc : s.acc = [] := by
      cases h : s.acc with
      | nil => rfl
      | cons a t => rw [h] at hne; simp at hne
    have hs1 : handleEvent cfg s .tick = s := by simp [handleEvent, hne]
    simp only [iteratePump, hs1]
    rw [if_neg (by rw [hacc]; simp)]
    exact hacc

theorem runPump_append (cfg : Config) (a b : List Ev) (s : PumpState) :
    runPump cfg s (a ++ b) = runPump cfg (runPump cfg s a) b := by
  induction a generalizing s with
  | nil => rfl
  | cons e es ih =>
    rw [List.cons_append]
    have h1 : runPump cfg s (e :: (es ++ b)) = runPump cfg (iteratePump cfg s e).1 (es ++ b) := rfl
    have h2 : runPump cfg s (e :: es) = runPump cfg (iteratePump cfg s e).1 es := rfl
    rw [h1, h2, ih]

/-- The pump invariant: over any schedule, `active ++ acc` grows by exactly
the concatenation of the received payloads in FIFO order, provided the
total still fits under the cap (so no flush ever rotates). -/
theorem runPump_concat (cfg : Config) (evs : List Ev) (s : PumpState)
    (ho : s.fs.openFails = false)
    (hsz : s.fs.active.length + s.acc.length + (received evs).flatten.length
      ≤ cfg.maxFileSize) :
    (runPump cfg s evs).fs.active ++ (runPump cfg s evs).acc
      = s.fs.active ++ s.acc ++ (received evs).flatten ∧
    (runPump cfg s evs).fs.openFails = false := by
  induction evs generalizing s with
  | nil => exact ⟨by simp [runPump, received], ho⟩
  | cons e es ih =>
    have hpay : (received (e :: es)).flatten = evPayload e ++ (received es).flatten := by
      cases e with
      | tick => simp [received, evPayload]
      | recv p ok => cases ok <;> simp [received, evPayload]
    rw [hpay, List.length_append] at hsz
    have hstep := iteratePump_concat cfg s e ho (by omega)
    have hlen : (iteratePump cfg s e).1.fs.active.length
        + (iteratePump cfg s e).1.acc.length
        = s.fs.active.length + s.acc.length + (evPayload e).length := by
      have hl := congrArg List.length hstep.1
      simp [List.length_append] at hl
      omega
    have ihh := ih (iteratePump cfg s e).1 hstep.2 (by omega)
    have hrun : runPump cfg s (e :: es) = runPump cfg (iteratePump cfg s e).1 es := rfl
    rw [hrun, hpay]
    refine ⟨?_, ihh.2⟩
    rw [ihh.1, hstep.1]
    simp [List.append_assoc]

/-- Claim C1: for every schedule of channel receives (and ticks) whose
payload total fits under the cap, running the pump and then one final
timer flush appends to the active file exactly the concatenation of the
payloads in the FIFO order they were received from the ingress channel —
no interleaving, no loss — and leaves the accumulation buffer empty. -/
theorem pump_fifo_concat (cfg : Config) (evs : List Ev) (fs0 : FsState)
    (ho : fs0.openFails = false)
    (hsz : fs0.active.length + (received evs).flatten.length ≤ cfg.maxFileSize) :
    (runPump cfg ⟨[], fs0⟩ (evs ++ [Ev.tick])).fs.active
      = fs0.active ++ (received evs).flatten ∧
    (runPump cfg ⟨[], fs0⟩ (evs ++ [Ev.tick])).acc = [] := by
  have hinv := runPump_concat cfg evs ⟨[], fs0⟩ ho (by simpa using hsz)
  have hA := hinv.1
  have e1 : ((⟨[], fs0⟩ : PumpState)).fs.active = fs0.active := rfl
  have e2 : ((⟨[], fs0⟩ : PumpState)).acc = ([] : Bytes) := rfl
  rw [e1, e2, List.append_nil] at hA
  have hAlen : (runPump cfg ⟨[], fs0⟩ evs).fs.active.length
      + (runPump cfg ⟨[], fs0⟩ evs).acc.length
      = fs0.active.length + (received evs).flatten.length := by
    have hl := congrArg List.length hA
    rw [List.length_append, List.length_append] at hl
    exact hl
  have hfin := iteratePump_concat cfg (runPump cfg ⟨[], fs0⟩ evs) Ev.tick hinv.2
    (by simp only [evPayload, List.length_nil]; omega)
  have hacc := iteratePump_tick_acc cfg (runPump cfg ⟨[], fs0⟩ evs)
  rw [runPump_append]
  have hstepA : (iteratePump cfg (runPump cfg ⟨[], fs0⟩ evs) Ev.tick).1.fs.active
      = fs0.active ++ (received evs).flatten := by
    have h1 := hfin.1
    rw [hacc, List.append_nil] at h1
    rw [h1, hA]
    simp [evPayload]
  exact ⟨by simpa [runPump] using hstepA, by simpa [runPump] using hacc⟩

/-- Witness for C1: two records then a tick; the active file ends as their
concatenation in order and the buffer is empty. -/
theorem pump_fifo_concat_witness :
    (FsState.mk [] [] 0 false false).openFails = false ∧
    (FsState.mk [] [] 0 false false).active.length
      + (received [Ev.recv [1, 2] true, Ev.recv [3] true]).flatten.length ≤ 1048576 ∧
    (runPump ⟨1048576, 0⟩ ⟨[], FsState.mk [] [] 0 false false⟩
        ([Ev.recv [1, 2] true, Ev.recv [3] true] ++ [Ev.tick])).fs.active
      = (FsState.mk [] [] 0 false false).active
        ++ (received [Ev.recv [1, 2] true, Ev.recv [3] true]).flatten :=
  ⟨rfl, by decide,
    (pump_fifo_concat ⟨1048576, 0⟩ [Ev.recv [1, 2] true, Ev.recv [3] true]
      (FsState.mk [] [] 0 false false) rfl (by decide)).1⟩

theorem maxCacheSize_default_lt : maxCacheSize ⟨1048576, 0⟩ < 1048577 := by
  norm_num [maxCacheSize]

/-- Receiving a payload of `n` bytes into an empty accumulation buffer
leaves the buffer above the cache threshold whenever `n` exceeds it. -/
theorem handleEvent_bigrecv_gt (cfg : Config) (fs : FsState) (n : Nat)
    (h : maxCacheSize cfg < n) :
    (handleEvent cfg ⟨[], fs⟩ (Ev.recv (payloadOfSize n) true)).acc.length
      > maxCacheSize cfg := by
  simpa [handleEvent, payloadOfSize_length] using h

/-- Claim C2 is false on the code: with the default 1 MiB cache threshold,
after receiving a record that lifts the buffer over the threshold the
iteration performs one blocking ticker receive (`<-tm.C`) before its
size-triggered flush — the claim's "without waiting for a timer tick"
would require zero ticker receives on this path. -/
theorem sizeflush_waits_for_tick_cex :
    (iteratePump ⟨1048576, 0⟩ ⟨[], FsState.mk [] [] 0 false false⟩
      (Ev.recv (payloadOfSize 1048577) true)).2 = 1 ∧
    (iteratePump ⟨1048576, 0⟩ ⟨[], FsState.mk [] [] 0 false false⟩
      (Ev.recv (payloadOfSize 1048577) true)).2 ≠ 0 := by
  have h := handleEvent_bigrecv_gt ⟨1048576, 0⟩ (FsState.mk [] [] 0 false false)
    1048577 maxCacheSize_default_lt
  constructor
  · simp only [iteratePump, if_pos h]
  · simp only [iteratePump, if_pos h]
    exact one_ne_zero

/-- Claim C2 (amended): in every iteration of the pump loop, after handling
whichever event fired, if the accumulation buffer's length exceeds the max
cache size the pump blocks for exactly one further ticker receive, then
flushes the whole buffer through `_writeFile` and resets it — the flush
happens in the same iteration (before any further channel receive) but
only after consuming the next timer tick. -/
theorem sizeflush_after_one_tick (cfg : Config) (s : PumpState) (e : Ev)
    (h : (handleEvent cfg s e).acc.length > maxCacheSize cfg) :
    (iteratePump cfg s e).2 = 1 ∧
    (iteratePump cfg s e).1.acc = [] ∧
    (iteratePump cfg s e).1.fs
      = writeFile cfg (handleEvent cfg s e).acc (handleEvent cfg s e).fs := by
  have hres : iteratePump cfg s e = (flushAcc cfg (handleEvent cfg s e), 1) := by
    simp only [iteratePump, if_pos h]
  rw [hres]
  exact ⟨rfl, rfl, rfl⟩

/-- Witness for the amended C2: the oversized record of the counterexample
triggers the one-tick wait and the flush-and-reset in the same iteration. -/
theorem sizeflush_after_one_tick_witness :
    (handleEvent ⟨1048576, 0⟩ ⟨[], FsState.mk [] [] 0 false false⟩
        (Ev.recv (payloadOfSize 1048577) true)).acc.length
      > maxCacheSize ⟨1048576, 0⟩ ∧
    (iteratePump ⟨1048576, 0⟩ ⟨[], FsState.mk [] [] 0 false false⟩
        (Ev.recv (payloadOfSize 1048577) true)).2 = 1 :=
  ⟨handleEvent_bigrecv_gt ⟨1048576, 0⟩ (FsState.mk [] [] 0 false false)
      1048577 maxCacheSize_default_lt,
    (sizeflush_after_one_tick ⟨1048576, 0⟩ ⟨[], FsState.mk [] [] 0 false false⟩
      (Ev.recv (payloadOfSize 1048577) true)
      (handleEvent_bigrecv_gt ⟨1048576, 0⟩ (FsState.mk [] [] 0 false false)
        1048577 maxCacheSize_default_lt)).1⟩

/-- One atom of the pattern `_initFileRemove` compiles from
`fmt.Sprintf` of the file name followed by an escaped dot and `\d{14}`:
a literal character, the unescaped-dot metacharacter (matches any
character except newline — this is what a `.` inside `FileName` becomes,
since the name is interpolated into the regex verbatim), or `\d`. -/
inductive RAtom where
  | lit (c : Char)
  | anyChar
  | digit
deriving Repr, DecidableEq

def atomMatch : RAtom → Char → Bool
  | .lit a, c => a == c
  | .anyChar, c => c != '\n'
  | .digit, c => c.isDigit

/-- The atoms contributed by interpolating `FileName` verbatim into the
regex source: each `.` of the file name becomes the any-character
metacharacter, every other character a literal (we assume the file name
contains no further regex metacharacters). -/
def baseAtoms (fileName : String) : List RAtom :=
  fileName.data.map fun c => if c = '.' then RAtom.anyChar else RAtom.lit c

/-- The full compiled pattern: the interpolated file name, an escaped
literal dot, then fourteen `\d` atoms. -/
def patternOf (fileName : String) : List RAtom :=
  baseAtoms fileName ++ (RAtom.lit '.' :: List.replicate 14 RAtom.digit)

/-- Match the fixed-length atom list against a prefix of `s` (trailing
characters of `s` are allowed). -/
def matchesAt : List RAtom → List Char → Bool
  | [], _ => true
  | _ :: _, [] => false
  | a :: pat, c :: s => atomMatch a c && matchesAt pat s

/-- `re.MatchString`: unanchored search — the pattern may match starting
at any offset of the name. -/
def matchString (pat : List RAtom) : List Char → Bool
  | [] => matchesAt pat []
  | c :: s => matchesAt pat (c :: s) || matchString pat s

/-- The sweep's selection predicate: `re.MatchString(fi.Name())`. -/
def rotMatches (fileName nm : String) : Bool :=
  matchString (patternOf fileName) nm.data

/-- The string comparison `flist[i] < flist[j]` of the sweep's
`sort.Slice`, as a computable `≤` on names-as-character-lists (Go compares
UTF-8 bytes; on valid UTF-8 this coincides with code-point order). -/
def lexLe : List Char → List Char → Bool
  | [], _ => true
  | _ :: _, [] => false
  | a :: as, b :: bs => if a = b then lexLe as bs else decide (a < b)

theorem lexLe_total : ∀ a b : List Char, lexLe a b = true ∨ lexLe b a = true := by
  intro a
  induction a with
  | nil => intro b; exact Or.inl rfl
  | cons x as ih =>
    intro b
    cases b with
    | nil => exact Or.inr rfl
    | cons y bs =>
      by_cases hxy : x = y
      · subst hxy
        rcases ih bs with h | h
        · exact Or.inl (by simp [lexLe, h])
        · exact Or.inr (by simp [lexLe, h])
      · have hyx : ¬ y = x := fun e => hxy e.symm
        rcases lt_or_gt_of_ne hxy with h | h
        · exact Or.inl (by simp [lexLe, hxy, h])
        · have h' : y < x := h
          exact Or.inr (by simp [lexLe, hyx, h'])

theorem lexLe_trans : ∀ a b c : List Char,
    lexLe a b = true → lexLe b c = true → lexLe a c = true := by
  intro a
  induction a with
  | nil => intro b c hab hbc; rfl
  | cons x as ih =>
    intro b c hab hbc
    cases b with
    | nil => simp [lexLe] at hab
    | cons y bs =>
      cases c with
      | nil => simp [lexLe] at hbc
      | cons z cs =>
        simp only [lexLe] at hab hbc ⊢
        by_cases hxy : x = y
        · subst hxy
          rw [if_pos rfl] at hab
          by_cases hyz : x = z
          · subst hyz
            rw [if_pos rfl] at hbc ⊢
            exact ih bs cs hab hbc
          · rw [if_neg hyz] at hbc ⊢
            exact hbc
        · rw [if_neg hxy] at hab
          have hxy' : x < y := of_decide_eq_true hab
          by_cases hyz : y = z
          · subst hyz
            rw [if_neg hxy]
            exact hab
          · rw [if_neg hyz] at hbc
            have hyz' : y < z := of_decide_eq_true hbc
            have hxz : x < z := lt_trans hxy' hyz'
            rw [if_neg (ne_of_lt hxz)]
            exact decide_eq_true hxz

instance : IsTotal (List Char) (fun a b => lexLe a b = true) := ⟨lexLe_total⟩

instance : IsTrans (List Char) (fun a b => lexLe a b = true) := ⟨lexLe_trans⟩

/-- The directory entries the sweep collects into `flist`. -/
def matchedNames (fileName : String) (names : List (List Char)) :
    List (List Char) :=
  names.filter fun nm => matchString (patternOf fileName) nm

/-- The file names `cleanFile` deletes: nothing when retention is disabled
(`MaxFileCount <= 0`) or when `count + 1 <= MaxFileCount`; otherwise the
first `count + 1 - MaxFileCount` entries of the ascending sort of the
matched names. -/
def cleanFileDeleted (cfg : Config) (fileName : String)
    (names : List (List Char)) : List (List Char) :=
  if cfg.maxFileCount ≤ 0 then []
  else if ((matchedNames fileName names).length : Int) + 1 ≤ cfg.maxFileCount then []
  else (List.insertionSort (fun a b => lexLe a b = true)
      (matchedNames fileName names)).take
    ((matchedNames fileName names).length + 1 - cfg.maxFileCount.toNat)

/-- Modelled from the spec's words, for comparison with the code's
selection predicate: a name of the exact form `<baseName>.<14 digits>` —
the base name, then a dot, then exactly fourteen digits and nothing
else. -/
def specExactRotName (fileName nm : String) : Bool :=
  let s := nm.data
  let fn := fileName.data
  (List.take fn.length s == fn) &&
  (List.take 1 (List.drop fn.length s) == ['.']) &&
  ((List.drop (fn.length + 1) s).length == 14) &&
  (List.drop (fn.length + 1) s).all Char.isDigit

/-- Claim C9 is false on the code: the regex is unanchored (matched by
containment) and the base name's dot is not escaped, so
`log.txt.123456789012345` — fifteen digits, not fourteen — is selected by
the sweep although it is not `<baseName>.<14 digits>`. -/
theorem rot_match_not_exact_cex :
    rotMatches "log.txt" "log.txt.123456789012345" = true ∧
    specExactRotName "log.txt" "log.txt.123456789012345" = false := by
  decide

theorem matchString_iff (pat : List RAtom) (s : List Char) :
    matchString pat s = true ↔ ∃ i, matchesAt pat (s.drop i) = true := by
  induction s with
  | nil =>
    constructor
    · intro h
      exact ⟨0, h⟩
    · rintro ⟨i, hi⟩
      rw [List.drop_nil] at hi
      exact hi
  | cons c s ih =>
    constructor
    · intro h
      rw [matchString, Bool.or_eq_true] at h
      rcases h with h | h
      · exact ⟨0, h⟩
      · obtain ⟨j, hj⟩ := ih.mp h
        exact ⟨j + 1, hj⟩
    · rintro ⟨i, hi⟩
      rw [matchString, Bool.or_eq_true]
      cases i with
      | zero => exact Or.inl hi
      | succ j => exact Or.inr (ih.mpr ⟨j, hi⟩)

theorem matchesAt_append (p q : List RAtom) (s : List Char) :
    matchesAt (p ++ q) s = (matchesAt p s && matchesAt q (s.drop p.length)) := by
  induction p generalizing s with
  | nil => simp [matchesAt]
  | cons a p ih =>
    cases s with
    | nil => simp [matchesAt]
    | cons c s =>
      rw [List.cons_append, matchesAt, matchesAt, ih]
      simp [Bool.and_assoc]

theorem baseAtoms_length (fileName : String) :
    (baseAtoms fileName).length = fileName.data.length := by
  simp [baseAtoms]

/-- Claim C9 (amended): a directory entry is selected by the sweep iff, at
SOME offset of its name, the characters there match the interpolated base
name — each `.` of the base name matching any non-newline character, the
other characters literally — followed by a literal dot and fourteen
digits; trailing characters (including further digits) are allowed, so
selection is by containment of such a segment, not by exact equality with
`<baseName>.<14 digits>`. -/
theorem rot_match_containment (fileName nm : String) :
    rotMatches fileName nm = true ↔
    ∃ i, matchesAt (baseAtoms fileName) (nm.data.drop i) = true ∧
      matchesAt (RAtom.lit '.' :: List.replicate 14 RAtom.digit)
        ((nm.data.drop i).drop fileName.data.length) = true := by
  rw [rotMatches, patternOf, matchString_iff]
  constructor
  · rintro ⟨i, hi⟩
    rw [matchesAt_append, Bool.and_eq_true, baseAtoms_length] at hi
    exact ⟨i, hi.1, hi.2⟩
  · rintro ⟨i, h1, h2⟩
    refine ⟨i, ?_⟩
    rw [matchesAt_append, Bool.and_eq_true, baseAtoms_length]
    exact ⟨h1, h2⟩

/-- Claim C5 is false in its boundary instance: with max retained count
K = 2 and K + 1 = 3 matched rotated files at sweep time, the sweep deletes
`3 + 1 - 2 = 2` files, not exactly one. -/
theorem retention_boundary_cex :
    (cleanFileDeleted ⟨1048576, 2⟩ "log.txt"
      ["log.txt.20240101000001".data, "log.txt.20240101000002".data,
        "log.txt.20240101000003".data]).length = 2 ∧
    (cleanFileDeleted ⟨1048576, 2⟩ "log.txt"
      ["log.txt.20240101000001".data, "log.txt.20240101000002".data,
        "log.txt.20240101000003".data]).length ≠ 1 := by
  decide

/-- Claim C5 (amended): with `MaxFileCount = K > 0` and `n` matched rotated
files at sweep time, the sweep deletes nothing when `n + 1 ≤ K` and
otherwise deletes exactly `n + 1 - K` files — the lexicographically
smallest (oldest) matched names and no others; with `n = K + 1` matched
files it therefore deletes exactly two (not one); and when
`MaxFileCount ≤ 0` retention is disabled and nothing is ever deleted. -/
theorem cleanFile_retention (cfg : Config) (fileName : String)
    (names : List (List Char)) :
    (cfg.maxFileCount ≤ 0 → cleanFileDeleted cfg fileName names = []) ∧
    (0 < cfg.maxFileCount →
      ((matchedNames fileName names).length : Int) + 1 ≤ cfg.maxFileCount →
      cleanFileDeleted cfg fileName names = []) ∧
    (0 < cfg.maxFileCount →
      cfg.maxFileCount < ((matchedNames fileName names).length : Int) + 1 →
      (cleanFileDeleted cfg fileName names).length
          = (matchedNames fileName names).length + 1 - cfg.maxFileCount.toNat ∧
        (∀ x ∈ cleanFileDeleted cfg fileName names,
          x ∈ matchedNames fileName names) ∧
        (∀ x ∈ cleanFileDeleted cfg fileName names,
          ∀ y ∈ (List.insertionSort (fun a b => lexLe a b = true)
              (matchedNames fileName names)).drop
            ((matchedNames fileName names).length + 1 - cfg.maxFileCount.toNat),
          lexLe x y = true) ∧
        ((matchedNames fileName names).length = cfg.maxFileCount.toNat + 1 →
          (cleanFileDeleted cfg fileName names).length = 2)) := by
  refine ⟨?_, ?_, ?_⟩
  · intro h
    rw [cleanFileDeleted, if_pos h]
  · intro hK hle
    rw [cleanFileDeleted, if_neg (not_le.mpr hK), if_pos hle]
  · intro hK hgt
    have hdel : cleanFileDeleted cfg fileName names
        = (List.insertionSort (fun a b => lexLe a b = true)
            (matchedNames fileName names)).take
          ((matchedNames fileName names).length + 1 - cfg.maxFileCount.toNat) := by
      rw [cleanFileDeleted, if_neg (not_le.mpr hK), if_neg (not_le.mpr hgt)]
    have htoNat : 1 ≤ cfg.maxFileCount.toNat := by omega
    have hmle : (matchedNames fileName names).length + 1 - cfg.maxFileCount.toNat
        ≤ (matchedNames fileName names).length := by omega
    have hlen : (cleanFileDeleted cfg fileName names).length
        = (matchedNames fileName names).length + 1 - cfg.maxFileCount.toNat := by
      rw [hdel, List.length_take, List.length_insertionSort]
      exact Nat.min_eq_left hmle
    refine ⟨hlen, ?_, ?_, ?_⟩
    · intro x hx
      rw [hdel] at hx
      exact (List.perm_insertionSort (fun a b => lexLe a b = true)
          (matchedNames fileName names)).mem_iff.mp
        (List.take_subset _ _ hx)
    · intro x hx y hy
      rw [hdel] at hx
      have hsorted : List.Sorted (fun a b => lexLe a b = true)
          (List.insertionSort (fun a b => lexLe a b = true)
            (matchedNames fileName names)) :=
        List.sorted_insertionSort (fun a b => lexLe a b = true)
          (matchedNames fileName names)
      exact hsorted.rel_of_mem_take_of_mem_drop hx hy
    · intro hcount
      rw [hlen, hcount]
      omega

/-- Witness for the amended C5: K = 2 with three matched rotated files —
the sweep deletes exactly two files. -/
theorem cleanFile_retention_witness :
    (0 : Int) < (⟨1048576, 2⟩ : Config).maxFileCount ∧
    (⟨1048576, 2⟩ : Config).maxFileCount
      < ((matchedNames "log.txt" ["log.txt.20240101000001".data,
          "log.txt.20240101000002".data,
          "log.txt.20240101000003".data]).length : Int) + 1 ∧
    (cleanFileDeleted ⟨1048576, 2⟩ "log.txt" ["log.txt.20240101000001".data,
        "log.txt.20240101000002".data, "log.txt.20240101000003".data]).length
      = (matchedNames "log.txt" ["log.txt.20240101000001".data,
          "log.txt.20240101000002".data,
          "log.txt.20240101000003".data]).length + 1
        - (⟨1048576, 2⟩ : Config).maxFileCount.toNat :=
  ⟨by decide, by decide,
    ((cleanFile_retention ⟨1048576, 2⟩ "log.txt" ["log.txt.20240101000001".data,
        "log.txt.20240101000002".data, "log.txt.20240101000003".data]).2.2
      (by decide) (by decide)).1⟩

end EasyLog
